import Mathlib

/-!
A verification development for the RAG engine of this repository
(src/rag/indexer.py, src/rag/vector_store.py, src/rag/rag_system.py).

Python strings are embedded as `List Char`, machine floats that only carry
time stamps or similarity scores as `Rat`, fallible calls as `Except`/`Option`,
and the stateful facade as explicit state passing over a `RAGState` record.
File-system reads, path normalisation and the embedding model are I/O
boundaries and enter as explicit function-valued parameters of an `Env` record.
-/

namespace Rag

/-! ## Indexer (src/rag/indexer.py) -/

/-- Configuration of `FileIndexer` (chunk_size, overlap), indexer.py line 27. -/
structure ChunkCfg where
  chunkSize : Nat
  overlap : Nat
deriving DecidableEq

/-- Chunk metadata attached by `chunk_text` (indexer.py lines 172-178).
The file-level fields `file_name`, `file_extension`, `file_size` and the two
time stamps are carried along by the Python dict but never read by any code
under verification, so only `file_path` is kept of the file-level metadata. -/
structure ChunkMeta where
  filePath : String
  chunkIndex : Nat
  startChar : Nat
  endChar : Nat
  chunkLength : Nat
deriving DecidableEq

/-- A chunked document (`Document`, indexer.py lines 10-15).  The md5 chunk id
of indexer.py line 191-194 is embedded as its (injective) preimage string
`file_path ++ ":" ++ chunk_index`. -/
structure Doc where
  chunkId : String
  text : List Char
  meta : ChunkMeta
deriving DecidableEq

/-- Whitespace in the sense of Python `str.strip()` (ASCII range; the inputs
under consideration are ASCII). -/
def isPySpace (c : Char) : Bool :=
  c = ' ' || c = '\t' || c = '\n' || c = '\r' || c = '\x0b' || c = '\x0c'

/-- Python `text.strip()`. -/
def pyStrip (l : List Char) : List Char :=
  ((l.dropWhile isPySpace).reverse.dropWhile isPySpace).reverse

/-- Python slice `text[s:e]`. -/
def pySlice (l : List Char) (s e : Nat) : List Char :=
  (l.take e).drop s

/-- Whether `sub` occurs in `text` starting at index `i`. -/
def matchesAt (text sub : List Char) (i : Nat) : Bool :=
  decide ((text.drop i).take sub.length = sub)

/-- Scan downward from `j` for the highest index `p` with `s ≤ p ≤ j` at which
`sub` matches. -/
def rfindDown (text sub : List Char) (s : Nat) : Nat → Option Nat
  | 0 => if s = 0 ∧ matchesAt text sub 0 = true then some 0 else none
  | j + 1 =>
    if j + 1 < s then none
    else if matchesAt text sub (j + 1) = true then some (j + 1)
    else rfindDown text sub s j

/-- Python `text.rfind(sub, s, e)`: the highest match position `p` with
`s ≤ p` and `p + len(sub) ≤ e`, as an `Option` (Python returns -1 for none). -/
def rfind (text sub : List Char) (s e : Nat) : Option Nat :=
  if sub.length ≤ e then rfindDown text sub s (e - sub.length) else none

/-- The boundary search of `chunk_text` (indexer.py lines 141-152): paragraph
break, else line break, else sentence end, else any space. -/
def boundaryPos (text : List Char) (s e : Nat) : Option Nat :=
  match rfind text ['\n', '\n'] s e with
  | some p => some p
  | none =>
    match rfind text ['\n'] s e with
    | some p => some p
    | none =>
      match rfind text ['.', ' '] s e with
      | some p => some p
      | none => rfind text [' '] s e

/-- `min_progress = max(1, self.overlap + 1)` (indexer.py line 127). -/
def minProg (cfg : ChunkCfg) : Nat :=
  max 1 (cfg.overlap + 1)

/-- The `end` position computed by one iteration of the `chunk_text` loop
(indexer.py lines 137-159): the fixed window `start + chunk_size`, pulled back
to a natural boundary if one is found that gives more than `min_progress`
characters of progress, and clamped to the text length. -/
def computeEnd (cfg : ChunkCfg) (text : List Char) (s : Nat) : Nat :=
  let e0 := s + cfg.chunkSize
  let e1 :=
    if e0 < text.length then
      match boundaryPos text s e0 with
      | some p => if s + minProg cfg < p then p + 1 else e0
      | none => e0
    else e0
  min e1 text.length

/-- The next `start` position (indexer.py lines 183-187): `end - overlap`,
forced to `start + min_progress` whenever that would not make progress. -/
def nextStart (cfg : ChunkCfg) (text : List Char) (s : Nat) : Nat :=
  let e := computeEnd cfg text s
  if e - cfg.overlap ≤ s then s + minProg cfg else e - cfg.overlap

/-- Result of the `chunk_text` while-loop: the emitted documents, the final
value of the Python `iteration` counter, whether the safety limit aborted the
loop, and whether any iteration skipped a whitespace-only chunk. -/
structure LoopOut where
  docs : List Doc
  iter : Nat
  aborted : Bool
  skipped : Bool
deriving DecidableEq

/-- The md5 chunk id of indexer.py lines 191-194, embedded as its preimage. -/
def chunkIdOf (path : String) (idx : Nat) : String :=
  path ++ ":" ++ toString idx

/-- The while-loop of `chunk_text` (indexer.py lines 131-187).  `fuel` is a
structural-recursion bound only: every iteration strictly increases `start`
(lines 183-187 force progress), so any `fuel > text.length - start` makes the
fuel-exhaustion branch unreachable and the function agrees with the source
loop on every input. -/
def chunkLoop (cfg : ChunkCfg) (text : List Char) (path : String) (maxIter : Nat) :
    Nat → Nat → Nat → Nat → LoopOut
  | 0, _, _, iter => ⟨[], iter, false, false⟩
  | fuel + 1, s, idx, iter =>
    if s < text.length then
      if maxIter < iter + 1 then ⟨[], iter + 1, true, false⟩
      else
        let e := computeEnd cfg text s
        let ct := pyStrip (pySlice text s e)
        let ns := nextStart cfg text s
        if ct.isEmpty then
          let r := chunkLoop cfg text path maxIter fuel ns idx (iter + 1)
          ⟨r.docs, r.iter, r.aborted, true⟩
        else
          let d : Doc := ⟨chunkIdOf path idx, ct, ⟨path, idx, s, e, ct.length⟩⟩
          let r := chunkLoop cfg text path maxIter fuel ns (idx + 1) (iter + 1)
          ⟨d :: r.docs, r.iter, r.aborted, r.skipped⟩
    else ⟨[], iter, false, false⟩

/-- The iteration cap `len(text) // min_progress + 100` (indexer.py line 128). -/
def maxIterations (cfg : ChunkCfg) (text : List Char) : Nat :=
  text.length / minProg cfg + 100

/-- The full run of the `chunk_text` loop starting from
`start = 0, chunk_index = 0, iteration = 0`. -/
def chunkRun (cfg : ChunkCfg) (text : List Char) (path : String) : LoopOut :=
  chunkLoop cfg text path (maxIterations cfg text) (text.length + 1) 0 0 0

/-- `FileIndexer.chunk_text` (indexer.py lines 108-189): empty or
whitespace-only text yields no chunks, otherwise the loop's documents. -/
def chunk_text (cfg : ChunkCfg) (text : List Char) (path : String) : List Doc :=
  if text.isEmpty || (pyStrip text).isEmpty then [] else (chunkRun cfg text path).docs

/-! ## Vector store (src/rag/vector_store.py) -/

/-- A persisted record of the backing collection: (id, text, embedding,
metadata), vector_store.py lines 87-92.  Embedding vectors are rationals; the
metadata dict is the typed chunk-metadata record (its values are already the
primitive scalars that `add_documents` would keep unchanged). -/
structure StoreRecord where
  id : String
  text : List Char
  embedding : List Rat
  metadata : ChunkMeta
deriving DecidableEq

/-- The ChromaDB collection, as the list of its records. -/
abbrev Collection := List StoreRecord

/-- Zip the four input sequences into records, one per position. -/
def mkRecords : List String → List (List Char) → List (List Rat) → List ChunkMeta →
    List StoreRecord
  | i :: is, t :: ts, e :: es, m :: ms => ⟨i, t, e, m⟩ :: mkRecords is ts es ms
  | _, _, _, _ => []

/-- Models the backend call `self.collection.add(...)` (vector_store.py lines
87-92): ChromaDB validates that the four sequences have equal length and
raises otherwise; on success one record per position is appended. -/
def Collection.add (col : Collection) (ids : List String) (texts : List (List Char))
    (embeddings : List (List Rat)) (metadatas : List ChunkMeta) : Except String Collection :=
  if ids.length = texts.length ∧ texts.length = embeddings.length ∧
      embeddings.length = metadatas.length then
    Except.ok (List.append col (mkRecords ids texts embeddings metadatas))
  else Except.error "backend rejected unequal input lengths"

/-- The validation condition of vector_store.py line 68, exactly as written:
`not chunk_ids or len(chunk_ids) != len(texts) != len(embeddings) != len(metadatas)`.
Python chains the three inequalities with `and`: the test trips only when
every ADJACENT pair of lengths differs. -/
def lengthGuardTrips (chunk_ids : List String) (texts : List (List Char))
    (embeddings : List (List Rat)) (metadatas : List ChunkMeta) : Bool :=
  chunk_ids.isEmpty ||
    (decide (chunk_ids.length ≠ texts.length) &&
     decide (texts.length ≠ embeddings.length) &&
     decide (embeddings.length ≠ metadatas.length))

/-- The property the validation is meant to enforce, following the spec's
words: all four sequences have equal length. -/
def allEqualLengths (chunk_ids : List String) (texts : List (List Char))
    (embeddings : List (List Rat)) (metadatas : List ChunkMeta) : Prop :=
  chunk_ids.length = texts.length ∧ texts.length = embeddings.length ∧
    embeddings.length = metadatas.length

/-- `VectorStore.add_documents` (vector_store.py lines 54-96): the line-68
guard raises `ValueError`, otherwise the records are handed to the backend
`collection.add`; a backend failure is printed and re-raised (line 96). -/
def add_documents (col : Collection) (chunk_ids : List String) (texts : List (List Char))
    (embeddings : List (List Rat)) (metadatas : List ChunkMeta) : Except String Collection :=
  if lengthGuardTrips chunk_ids texts embeddings metadatas then
    Except.error "All input lists must have the same length"
  else Collection.add col chunk_ids texts embeddings metadatas

/-- `VectorStore.get_document_count` (vector_store.py lines 213-215). -/
def get_document_count (col : Collection) : Nat :=
  col.length

/-- Insert into a sorted list (auxiliary for `sortLe`). -/
def insertLe {α : Type} (le : α → α → Bool) (a : α) : List α → List α
  | [] => [a]
  | b :: l => if le a b then a :: b :: l else b :: insertLe le a l

/-- A stable insertion sort, used to embed Python `sorted(...)` and the
backend's ranked query results. -/
def sortLe {α : Type} (le : α → α → Bool) : List α → List α
  | [] => []
  | a :: l => insertLe le a (sortLe le l)

/-- `VectorStore.get_all_file_paths` (vector_store.py lines 217-227): the
de-duplicated, sorted list of the `file_path` metadata values. -/
def get_all_file_paths (col : Collection) : List String :=
  sortLe (fun a b => decide (a ≤ b)) (col.map fun r => r.metadata.filePath).dedup

/-- `VectorStore.delete_by_file` (vector_store.py lines 173-193): collects the
ids of every record whose `file_path` metadata equals the argument and deletes
them; since ids are unique per record this removes exactly the matching
records. -/
def delete_by_file (col : Collection) (filePath : String) : Collection :=
  col.filter fun r => decide (r.metadata.filePath ≠ filePath)

/-- `VectorStore.search` (vector_store.py lines 114-158).  The backend
distance function (cosine distance of the HNSW index) is an external
parameter `dist`; the backend query returns the `n_results` pool records of
least distance, here as a merge-sort followed by `take`.  An empty collection
short-circuits to four empty sequences (lines 134-137); otherwise `top_k` is
clamped to the collection size (line 141) and distances are converted to
similarities `1 - d` (line 152). -/
def VectorStore.search (dist : List Rat → List Rat → Rat) (col : Collection)
    (queryEmbedding : List Rat) (topK : Nat) (filt : Option (ChunkMeta → Bool)) :
    List String × List (List Char) × List ChunkMeta × List Rat :=
  if col.length = 0 then ([], [], [], [])
  else
    let pool : Collection := match filt with
      | some w => col.filter fun r => w r.metadata
      | none => col
    let ranked : Collection := sortLe (fun (a b : StoreRecord) =>
      decide (dist queryEmbedding a.embedding ≤ dist queryEmbedding b.embedding)) pool
    let res : Collection := ranked.take (min topK col.length)
    (res.map fun (r : StoreRecord) => r.id, res.map fun (r : StoreRecord) => r.text,
     res.map fun (r : StoreRecord) => r.metadata,
     res.map fun (r : StoreRecord) => 1 - dist queryEmbedding r.embedding)

/-! ## RAG facade (src/rag/rag_system.py) -/

/-- The formatted context produced by the context builder.  Modelled from the
spec: the context-builder source is not part of the verified tree; per spec
section 3, a `FormattedContext` carries the formatted text, a token count and
a truncation flag (its chunk list adds nothing to the claims below). -/
structure FormattedContext where
  contextText : String
  totalTokens : Nat
  truncated : Bool
deriving DecidableEq

/-- The non-query arguments of `RAGSystem.get_context`
(rag_system.py lines 216-223). -/
structure GCParams where
  topK : Nat
  retrievalMethod : String
  formatStyle : String
  boostActiveFiles : Bool
  minScore : Rat
  filters : Option (List (String × String))
deriving DecidableEq

/-- The mutable state of a `RAGSystem` instance: the vector-store collection,
the embedding cache (modelled from the spec, section 4.2: one persisted blob
of vectors per cache key), the retriever's active-file set, and the three
cooldown-cache fields of rag_system.py lines 67-69. -/
structure RAGState where
  store : Collection
  embCache : List (String × List (List Rat))
  activeFiles : List String
  lastContextTime : Rat
  lastContextQuery : String
  lastContextResult : Option FormattedContext
deriving DecidableEq

/-- A freshly constructed `RAGSystem` (rag_system.py lines 52-72): everything
empty, `_last_context_time = 0`, `_last_context_query = ""`,
`_last_context_result = None`. -/
def rag0 : RAGState :=
  ⟨[], [], [], 0, "", none⟩

/-- Constructor-time configuration of the facade (rag_system.py lines 28-64).
The embedding model name and the two directories are I/O identifiers with no
behavioral content here. -/
structure RAGConfig where
  chunkCfg : ChunkCfg
  maxDocuments : Nat
  maxChunksPerFile : Nat
deriving DecidableEq

/-- `self._context_cooldown = 2.0` seconds (rag_system.py line 70). -/
def contextCooldown : Rat := 2

/-- The I/O boundary of the facade: reading and parsing a file
(`FileIndexer.parse_file`, returning none for a missing, unsupported,
oversized or unreadable file), path normalisation (`Path(...).absolute()`),
and the embedding model behind `EmbeddingManager.batch_generate` (modelled
from the spec, section 4.2: order-preserving, one vector per text). -/
structure Env where
  fs : String → Option (List Char)
  abspath : String → String
  embed : List Char → List Rat

/-- `FileIndexer.index_file` (indexer.py lines 196-221): parse, then chunk
with the file metadata. -/
def FileIndexer.index_file (cfg : ChunkCfg) (fs : String → Option (List Char))
    (path : String) : List Doc :=
  match fs path with
  | none => []
  | some content => chunk_text cfg content path

/-- Modelled from the spec (section 4.2):
`EmbeddingManager.load_cached_embeddings` reads the single blob stored under
the key, if any. -/
def load_cached_embeddings (cache : List (String × List (List Rat))) (key : String) :
    Option (List (List Rat)) :=
  (cache.find? fun kv => decide (kv.1 = key)).map fun kv => kv.2

/-- Modelled from the spec (section 4.2): `EmbeddingManager.cache_embeddings`
stores the blob under the key, replacing any previous entry. -/
def cache_embeddings (cache : List (String × List (List Rat))) (key : String)
    (vectors : List (List Rat)) : List (String × List (List Rat)) :=
  (key, vectors) :: cache.filter fun kv => decide (kv.1 ≠ key)

/-- The md5 file-path hash used as cache key (`RAGSystem._get_file_hash`,
rag_system.py lines 74-76), embedded as its preimage. -/
def fileHash (path : String) : String :=
  path

/-- The cache-first embedding step of `RAGSystem.index_file` (rag_system.py
lines 129-139): a cached blob is honored only if its length matches the chunk
count; otherwise the embeddings are regenerated and cached. -/
def getEmbeddings (env : Env) (st : RAGState) (key : String) (texts : List (List Char)) :
    List (List Rat) × RAGState :=
  match load_cached_embeddings st.embCache key with
  | some v =>
    if v.length = texts.length then (v, st)
    else
      let e := texts.map env.embed
      (e, { st with embCache := cache_embeddings st.embCache key e })
  | none =>
    let e := texts.map env.embed
    (e, { st with embCache := cache_embeddings st.embCache key e })

/-- Steps 2 and 3 of `RAGSystem.index_file` (rag_system.py lines 126-148):
cache-first embedding generation followed by the bulk add; the `except` of
line 150 maps an `add_documents` failure to a `False` return. -/
def storeChunks (env : Env) (st1 : RAGState) (path : String) (chunks : List Doc) :
    Bool × RAGState :=
  let texts := chunks.map fun c => c.text
  let p := getEmbeddings env st1 (fileHash path) texts
  let chunk_ids := chunks.map fun c => c.chunkId
  let metadatas := chunks.map fun c => c.meta
  match add_documents p.2.store chunk_ids texts p.1 metadatas with
  | Except.ok col => (true, { p.2 with store := col })
  | Except.error _ => (false, p.2)

/-- `RAGSystem.index_file` (rag_system.py lines 78-154), returning the `bool`
result together with the successor state. -/
def index_file (cfg : RAGConfig) (env : Env) (st : RAGState) (path0 : String)
    (force_reindex : Bool) : Bool × RAGState :=
  let path := env.abspath path0
  let currentCount := get_document_count st.store
  if cfg.maxDocuments ≤ currentCount ∧ force_reindex = false then (false, st)
  else if force_reindex = false ∧ path ∈ get_all_file_paths st.store then (true, st)
  else
    let st1 : RAGState :=
      if force_reindex then { st with store := delete_by_file st.store path } else st
    let chunks0 := FileIndexer.index_file cfg.chunkCfg env.fs path
    if chunks0.isEmpty then (false, st1)
    else
      let chunks := if cfg.maxChunksPerFile < chunks0.length
        then chunks0.take cfg.maxChunksPerFile else chunks0
      if cfg.maxDocuments < currentCount + chunks.length then (false, st1)
      else storeChunks env st1 path chunks

/-- The fresh-computation path of `get_context` (rag_system.py lines 246-269):
retrieval plus context building (their sources are outside the verified tree,
so they enter as the function parameter `compute`), then the cooldown cache
is updated with the query, the call time and the produced context. -/
def computeFresh (compute : RAGState → String → GCParams → FormattedContext)
    (st : RAGState) (now : Rat) (query : String) (p : GCParams) :
    FormattedContext × RAGState :=
  let fc := compute st query p
  (fc, { st with lastContextTime := now, lastContextQuery := query,
                 lastContextResult := some fc })

/-- `RAGSystem.get_context` (rag_system.py lines 216-269): if the query
equals the previously cached query, the call arrives strictly within the
cooldown window and a previous result exists, that result is returned
verbatim and the state is untouched; otherwise the fresh path runs. -/
def get_context (compute : RAGState → String → GCParams → FormattedContext)
    (st : RAGState) (now : Rat) (query : String) (p : GCParams) :
    FormattedContext × RAGState :=
  match st.lastContextResult with
  | some r =>
    if query = st.lastContextQuery ∧ now - st.lastContextTime < contextCooldown then
      (r, st)
    else computeFresh compute st now query p
  | none => computeFresh compute st now query p

/-- `RAGSystem.clear_index` (rag_system.py lines 327-332): clears the
collection, the embedding cache and the retriever's active-file set.  The
three `_last_context_*` fields are not touched by the source. -/
def clear_index (st : RAGState) : RAGState :=
  { st with store := [], embCache := [], activeFiles := [] }

/-- The parsed-and-capped chunk list that `index_file` compares against the
document limit (rag_system.py lines 111-119). -/
def effectiveChunks (cfg : RAGConfig) (env : Env) (path : String) : List Doc :=
  let c := FileIndexer.index_file cfg.chunkCfg env.fs path
  if cfg.maxChunksPerFile < c.length then c.take cfg.maxChunksPerFile else c

/-- The monotonicity relation of claim C3 between consecutive chunks: both
range endpoints are non-decreasing. -/
def rangeMono (a b : Doc) : Prop :=
  a.meta.startChar ≤ b.meta.startChar ∧ a.meta.endChar ≤ b.meta.endChar

/-- The coverage property asserted by claim C3, following the spec's words:
the emitted ranges `[start_char, end_char)` in order start at 0, end at the
text length, and consecutive ranges leave no gap larger than the configured
overlap. -/
def coversText (cfg : ChunkCfg) (textLen : Nat) (docs : List Doc) : Prop :=
  docs ≠ [] ∧
  (docs.head?.map fun d => d.meta.startChar) = some 0 ∧
  (docs.getLast?.map fun d => d.meta.endChar) = some textLen ∧
  List.Chain' (fun a b => b.meta.startChar ≤ a.meta.endChar + cfg.overlap) docs

/-! ## Concrete fixtures for witnesses and counterexamples -/

def cmA : ChunkMeta := ⟨"f1", 0, 0, 2, 2⟩

def cmB : ChunkMeta := ⟨"f2", 0, 0, 2, 2⟩

def recH : StoreRecord := ⟨"h:0", "xy".data, [1], ⟨"h", 0, 0, 2, 2⟩⟩

def fcOld : FormattedContext := ⟨"old", 5, false⟩

def fcNew : FormattedContext := ⟨"fresh", 1, false⟩

def gcDefault : GCParams := ⟨5, "vector", "detailed", true, 0, none⟩

def stCache : RAGState := ⟨[recH], [("k", [[1], [2]])], ["h"], 0, "q", some fcOld⟩

def envF : Env := ⟨fun p => if p = "f" then some "ab".data else none, id, fun _ => [1]⟩

def cfgF : RAGConfig := ⟨⟨4, 0⟩, 1, 100⟩

def envG : Env := ⟨fun p => if p = "g" then some "abcd".data else none, id, fun _ => [1]⟩

def cfgG : RAGConfig := ⟨⟨2, 0⟩, 1, 100⟩

def stH : RAGState := ⟨[recH], [], [], 0, "", none⟩

def envH : Env := ⟨fun p => if p = "h" then some "   ".data else none, id, fun _ => [1]⟩

def cfgH : RAGConfig := ⟨⟨2, 0⟩, 1000000, 100⟩

/-! ## General lemmas about the embedding -/

theorem mem_insertLe {α : Type} (le : α → α → Bool) (a x : α) (l : List α) :
    x ∈ insertLe le a l ↔ x = a ∨ x ∈ l := by
  induction l with
  | nil => simp [insertLe]
  | cons b t ih =>
    simp only [insertLe]
    split
    · simp [List.mem_cons]
    · simp only [List.mem_cons, ih]
      tauto

theorem mem_sortLe {α : Type} (le : α → α → Bool) (x : α) (l : List α) :
    x ∈ sortLe le l ↔ x ∈ l := by
  induction l with
  | nil => simp [sortLe]
  | cons a t ih => simp [sortLe, mem_insertLe, ih]

theorem length_insertLe {α : Type} (le : α → α → Bool) (a : α) (l : List α) :
    (insertLe le a l).length = l.length + 1 := by
  induction l with
  | nil => rfl
  | cons b t ih =>
    simp only [insertLe]
    split
    · rfl
    · simp [ih]

theorem length_sortLe {α : Type} (le : α → α → Bool) (l : List α) :
    (sortLe le l).length = l.length := by
  induction l with
  | nil => rfl
  | cons a t ih => simp [sortLe, length_insertLe, ih]

theorem mem_get_all_file_paths {p : String} {col : Collection} :
    p ∈ get_all_file_paths col ↔ ∃ r ∈ col, r.metadata.filePath = p := by
  rw [get_all_file_paths, mem_sortLe, List.mem_dedup, List.mem_map]

theorem delete_by_file_not_mem (col : Collection) (path : String) :
    path ∉ get_all_file_paths (delete_by_file col path) := by
  rw [mem_get_all_file_paths]
  rintro ⟨r, hr, hrp⟩
  rw [delete_by_file, List.mem_filter] at hr
  have h2 := hr.2
  simp only [decide_eq_true_eq] at h2
  exact h2 hrp

theorem delete_by_file_length_lt (col : Collection) (path : String)
    (h : path ∈ get_all_file_paths col) :
    (delete_by_file col path).length < col.length := by
  rw [mem_get_all_file_paths] at h
  obtain ⟨r, hr, hrp⟩ := h
  rw [delete_by_file]
  rw [List.length_filter_lt_length_iff_exists]
  exact ⟨r, hr, by simp [hrp]⟩

theorem mkRecords_length (ids : List String) :
    ∀ (texts : List (List Char)) (embs : List (List Rat)) (metas : List ChunkMeta),
      ids.length = texts.length → texts.length = embs.length →
      embs.length = metas.length →
      (mkRecords ids texts embs metas).length = ids.length := by
  induction ids with
  | nil => intro texts embs metas _ _ _; rfl
  | cons i is ih =>
    intro texts embs metas h1 h2 h3
    cases texts with
    | nil => simp at h1
    | cons t ts =>
      cases embs with
      | nil => simp at h2
      | cons e es =>
        cases metas with
        | nil => simp at h3
        | cons m ms =>
          simp only [mkRecords, List.length_cons]
          rw [ih ts es ms (by simpa using h1) (by simpa using h2) (by simpa using h3)]

theorem getEmbeddings_store (env : Env) (st : RAGState) (key : String)
    (texts : List (List Char)) : (getEmbeddings env st key texts).2.store = st.store := by
  rw [getEmbeddings]
  rcases load_cached_embeddings st.embCache key with _ | v
  · rfl
  · dsimp only
    split <;> rfl

/-! ## Lemmas about the chunking loop -/

theorem minProg_eq (cfg : ChunkCfg) : minProg cfg = cfg.overlap + 1 := by
  rw [minProg]
  exact Nat.max_eq_right (Nat.succ_le_succ (Nat.zero_le _))

theorem rfindDown_bounds (text sub : List Char) (s : Nat) :
    ∀ j p, rfindDown text sub s j = some p → s ≤ p ∧ p ≤ j := by
  intro j
  induction j with
  | zero =>
    intro p h
    rw [rfindDown] at h
    split at h
    · rename_i hc
      injection h with h
      omega
    · exact absurd h (by simp)
  | succ j ih =>
    intro p h
    rw [rfindDown] at h
    split at h
    · exact absurd h (by simp)
    · split at h
      · rename_i h1 _
        injection h with h
        omega
      · obtain ⟨hl, hr⟩ := ih p h
        exact ⟨hl, Nat.le_succ_of_le hr⟩

theorem rfind_bounds {text sub : List Char} {s e p : Nat}
    (h : rfind text sub s e = some p) : s ≤ p ∧ p + sub.length ≤ e := by
  rw [rfind] at h
  split at h
  · rename_i hle
    obtain ⟨h1, h2⟩ := rfindDown_bounds text sub s _ p h
    exact ⟨h1, by omega⟩
  · exact absurd h (by simp)

theorem boundaryPos_bounds {text : List Char} {s e p : Nat}
    (h : boundaryPos text s e = some p) : s ≤ p ∧ p + 1 ≤ e := by
  rw [boundaryPos] at h
  rcases h1 : rfind text ['\n', '\n'] s e with _ | p1
  · rw [h1] at h
    dsimp only at h
    rcases h2 : rfind text ['\n'] s e with _ | p2
    · rw [h2] at h
      dsimp only at h
      rcases h3 : rfind text ['.', ' '] s e with _ | p3
      · rw [h3] at h
        dsimp only at h
        have hb := rfind_bounds h
        exact ⟨hb.1, by simpa using hb.2⟩
      · rw [h3] at h
        dsimp only at h
        injection h with h
        subst h
        have hb := rfind_bounds h3
        have h2 := hb.2
        simp only [List.length_cons, List.length_nil] at h2
        exact ⟨hb.1, by omega⟩
    · rw [h2] at h
      dsimp only at h
      injection h with h
      subst h
      have hb := rfind_bounds h2
      have h2b := hb.2
      simp only [List.length_cons, List.length_nil] at h2b
      exact ⟨hb.1, by omega⟩
  · rw [h1] at h
    dsimp only at h
    injection h with h
    subst h
    have hb := rfind_bounds h1
    have h2b := hb.2
    simp only [List.length_cons, List.length_nil] at h2b
    exact ⟨hb.1, by omega⟩

theorem computeEnd_spec (cfg : ChunkCfg) (text : List Char) (s : Nat) :
    computeEnd cfg text s = min (s + cfg.chunkSize) text.length ∨
    (s + cfg.chunkSize < text.length ∧
     s + minProg cfg + 1 < computeEnd cfg text s ∧
     computeEnd cfg text s ≤ s + cfg.chunkSize) := by
  rw [computeEnd]
  by_cases hlt : s + cfg.chunkSize < text.length
  · rw [if_pos hlt]
    rcases hb : boundaryPos text s (s + cfg.chunkSize) with _ | p
    · exact Or.inl rfl
    · dsimp only
      by_cases hp : s + minProg cfg < p
      · rw [if_pos hp]
        right
        have hbb := boundaryPos_bounds hb
        refine ⟨hlt, ?_, ?_⟩
        · rw [min_eq_left (by omega)]
          omega
        · rw [min_eq_left (by omega)]
          omega
      · rw [if_neg hp]
        exact Or.inl rfl
  · rw [if_neg hlt]
    exact Or.inl rfl

theorem computeEnd_le_len (cfg : ChunkCfg) (text : List Char) (s : Nat) :
    computeEnd cfg text s ≤ text.length := by
  rw [computeEnd]
  exact min_le_right _ _

theorem computeEnd_le (cfg : ChunkCfg) (text : List Char) (s : Nat) :
    computeEnd cfg text s ≤ s + cfg.chunkSize := by
  rcases computeEnd_spec cfg text s with h | ⟨-, -, h⟩
  · rw [h]
    exact min_le_left _ _
  · exact h

theorem lt_computeEnd (cfg : ChunkCfg) (text : List Char) (s : Nat)
    (hcs : 0 < cfg.chunkSize) (hs : s < text.length) : s < computeEnd cfg text s := by
  rcases computeEnd_spec cfg text s with h | ⟨-, h, -⟩
  · rw [h]
    exact lt_min (by omega) hs
  · omega

theorem nextStart_gt (cfg : ChunkCfg) (text : List Char) (s : Nat) :
    s < nextStart cfg text s := by
  rw [nextStart]
  split
  · have := minProg_eq cfg
    omega
  · omega

theorem nextStart_le_computeEnd_add (cfg : ChunkCfg) (text : List Char) (s : Nat)
    (hcs : 0 < cfg.chunkSize) (hs : s < text.length) :
    nextStart cfg text s ≤ computeEnd cfg text s + cfg.overlap := by
  have he := lt_computeEnd cfg text s hcs hs
  have hm := minProg_eq cfg
  rw [nextStart]
  split <;> omega

theorem computeEnd_le_nextStart_add (cfg : ChunkCfg) (text : List Char) (s : Nat) :
    computeEnd cfg text s ≤ nextStart cfg text s + cfg.overlap := by
  have hm := minProg_eq cfg
  rw [nextStart]
  split <;> omega

theorem computeEnd_exit (cfg : ChunkCfg) (text : List Char) (s : Nat)
    (hsz : cfg.overlap < cfg.chunkSize) (_hs : s < text.length)
    (hnext : text.length ≤ nextStart cfg text s) : computeEnd cfg text s = text.length := by
  have hlen := computeEnd_le_len cfg text s
  have hm := minProg_eq cfg
  rw [nextStart] at hnext
  split at hnext
  · rename_i hc
    rcases computeEnd_spec cfg text s with h | ⟨h1, h2, h3⟩
    · rcases le_or_lt text.length (s + cfg.chunkSize) with hL | hL
      · rw [h, min_eq_right hL]
      · rw [h, min_eq_left (le_of_lt hL)] at hc ⊢
        omega
    · omega
  · omega

theorem computeEnd_mono (cfg : ChunkCfg) (text : List Char) (s t : Nat)
    (hsz : cfg.overlap < cfg.chunkSize) (_hs : s < text.length)
    (hnext : nextStart cfg text s ≤ t) (_htL : t < text.length) :
    computeEnd cfg text s ≤ computeEnd cfg text t := by
  have hE := computeEnd_le_nextStart_add cfg text s
  have hlenS := computeEnd_le_len cfg text s
  rcases computeEnd_spec cfg text t with h | ⟨-, h, -⟩
  · rcases le_or_lt text.length (t + cfg.chunkSize) with hL | hL
    · rw [h, min_eq_right hL]
      exact hlenS
    · rw [h, min_eq_left (le_of_lt hL)]
      omega
  · have hm := minProg_eq cfg
    omega

theorem chunkLoop_of_ge (cfg : ChunkCfg) (text : List Char) (path : String)
    (maxIter fuel s idx iter : Nat) (h : text.length ≤ s) :
    chunkLoop cfg text path maxIter fuel s idx iter = ⟨[], iter, false, false⟩ := by
  cases fuel
  · rfl
  · rw [chunkLoop, if_neg (not_lt.mpr h)]

theorem chunkLoop_indices (cfg : ChunkCfg) (text : List Char) (path : String)
    (maxIter : Nat) :
    ∀ (fuel s idx iter : Nat),
      ((chunkLoop cfg text path maxIter fuel s idx iter).docs.map
        fun d => d.meta.chunkIndex)
        = List.range' idx (chunkLoop cfg text path maxIter fuel s idx iter).docs.length := by
  intro fuel
  induction fuel with
  | zero => intro s idx iter; rfl
  | succ fuel ih =>
    intro s idx iter
    rw [chunkLoop]
    by_cases hs : s < text.length
    · rw [if_pos hs]
      by_cases hcap : maxIter < iter + 1
      · rw [if_pos hcap]
        rfl
      · rw [if_neg hcap]
        by_cases hct : (pyStrip (pySlice text s (computeEnd cfg text s))).isEmpty
        · rw [if_pos hct]
          exact ih _ _ _
        · rw [if_neg hct]
          dsimp only
          rw [List.map_cons, List.length_cons, List.range']
          exact congrArg (List.cons idx) (ih _ _ _)
    · rw [if_neg hs]
      rfl

theorem chunkLoop_iter_le (cfg : ChunkCfg) (text : List Char) (path : String)
    (maxIter : Nat) :
    ∀ (fuel s idx iter : Nat), iter ≤ maxIter →
      (chunkLoop cfg text path maxIter fuel s idx iter).iter
        - (if (chunkLoop cfg text path maxIter fuel s idx iter).aborted then 1 else 0)
        ≤ maxIter := by
  intro fuel
  induction fuel with
  | zero =>
    intro s idx iter hit
    simpa [chunkLoop] using hit
  | succ fuel ih =>
    intro s idx iter hit
    rw [chunkLoop]
    by_cases hs : s < text.length
    · rw [if_pos hs]
      by_cases hcap : maxIter < iter + 1
      · rw [if_pos hcap]
        simpa using hit
      · rw [if_neg hcap]
        by_cases hct : (pyStrip (pySlice text s (computeEnd cfg text s))).isEmpty
        · rw [if_pos hct]
          exact ih _ _ _ (by omega)
        · rw [if_neg hct]
          dsimp only
          exact ih _ _ _ (by omega)
    · rw [if_neg hs]
      simpa using hit

theorem chunkLoop_docs_spec (cfg : ChunkCfg) (text : List Char) (path : String)
    (maxIter : Nat) (hsz : cfg.overlap < cfg.chunkSize) :
    ∀ (fuel s idx iter : Nat),
      (∀ d ∈ (chunkLoop cfg text path maxIter fuel s idx iter).docs,
         s ≤ d.meta.startChar ∧ d.meta.startChar < text.length ∧
         d.meta.endChar = computeEnd cfg text d.meta.startChar) ∧
      List.Chain' rangeMono (chunkLoop cfg text path maxIter fuel s idx iter).docs := by
  intro fuel
  induction fuel with
  | zero =>
    intro s idx iter
    exact ⟨by intro d hd; simp [chunkLoop] at hd, by simp [chunkLoop]⟩
  | succ fuel ih =>
    intro s idx iter
    rw [chunkLoop]
    by_cases hs : s < text.length
    · rw [if_pos hs]
      by_cases hcap : maxIter < iter + 1
      · rw [if_pos hcap]
        exact ⟨by intro d hd; simp at hd, by simp⟩
      · rw [if_neg hcap]
        by_cases hct : (pyStrip (pySlice text s (computeEnd cfg text s))).isEmpty
        · rw [if_pos hct]
          dsimp only
          obtain ⟨ihb, ihc⟩ := ih (nextStart cfg text s) idx (iter + 1)
          refine ⟨?_, ihc⟩
          intro d hd
          obtain ⟨hb1, hb2, hb3⟩ := ihb d hd
          have hns := nextStart_gt cfg text s
          exact ⟨by omega, hb2, hb3⟩
        · rw [if_neg hct]
          dsimp only
          obtain ⟨ihb, ihc⟩ := ih (nextStart cfg text s) (idx + 1) (iter + 1)
          constructor
          · intro d hd
            rcases List.mem_cons.mp hd with hd | hd
            · subst hd
              exact ⟨le_rfl, hs, rfl⟩
            · obtain ⟨hb1, hb2, hb3⟩ := ihb d hd
              have hns := nextStart_gt cfg text s
              exact ⟨by omega, hb2, hb3⟩
          · rw [List.chain'_cons']
            refine ⟨?_, ihc⟩
            intro b hb
            have hbmem : b ∈ (chunkLoop cfg text path maxIter fuel
                (nextStart cfg text s) (idx + 1) (iter + 1)).docs :=
              List.mem_of_mem_head? hb
            obtain ⟨hb1, hb2, hb3⟩ := ihb b hbmem
            have hns := nextStart_gt cfg text s
            constructor
            · dsimp only
              omega
            · dsimp only
              rw [hb3]
              exact computeEnd_mono cfg text s b.meta.startChar hsz hs hb1 hb2
    · rw [if_neg hs]
      exact ⟨by intro d hd; simp at hd, by simp⟩

theorem chunkLoop_covers (cfg : ChunkCfg) (text : List Char) (path : String)
    (maxIter : Nat) (hsz : cfg.overlap < cfg.chunkSize) :
    ∀ (fuel s idx iter : Nat), text.length ≤ s + fuel → s < text.length →
      (chunkLoop cfg text path maxIter fuel s idx iter).skipped = false →
      (chunkLoop cfg text path maxIter fuel s idx iter).aborted = false →
      (chunkLoop cfg text path maxIter fuel s idx iter).docs ≠ [] ∧
      ((chunkLoop cfg text path maxIter fuel s idx iter).docs.head?.map
        fun d => d.meta.startChar) = some s ∧
      ((chunkLoop cfg text path maxIter fuel s idx iter).docs.getLast?.map
        fun d => d.meta.endChar) = some text.length ∧
      List.Chain' (fun a b => b.meta.startChar ≤ a.meta.endChar + cfg.overlap)
        (chunkLoop cfg text path maxIter fuel s idx iter).docs := by
  intro fuel
  induction fuel with
  | zero =>
    intro s idx iter hfuel hs _ _
    omega
  | succ fuel ih =>
    intro s idx iter hfuel hs hskip habort
    rw [chunkLoop] at hskip habort ⊢
    rw [if_pos hs] at hskip habort ⊢
    by_cases hcap : maxIter < iter + 1
    · rw [if_pos hcap] at habort
      exact absurd habort (by simp)
    · rw [if_neg hcap] at hskip habort ⊢
      by_cases hct : (pyStrip (pySlice text s (computeEnd cfg text s))).isEmpty
      · rw [if_pos hct] at hskip
        exact absurd hskip (by simp)
      · rw [if_neg hct] at hskip habort ⊢
        dsimp only at hskip habort ⊢
        by_cases hns : nextStart cfg text s < text.length
        · obtain ⟨ihne, ihhead, ihlast, ihchain⟩ :=
            ih (nextStart cfg text s) (idx + 1) (iter + 1)
              (by have := nextStart_gt cfg text s; omega) hns hskip habort
          refine ⟨by simp, rfl, ?_, ?_⟩
          · rcases hrest : (chunkLoop cfg text path maxIter fuel (nextStart cfg text s)
                (idx + 1) (iter + 1)).docs with _ | ⟨b, t⟩
            · exact absurd hrest ihne
            · rw [hrest] at ihlast
              rw [List.getLast?_cons_cons]
              exact ihlast
          · rw [List.chain'_cons']
            refine ⟨?_, ihchain⟩
            intro b hb
            rw [Option.mem_def] at hb
            rw [hb] at ihhead
            simp only [Option.map_some'] at ihhead
            have hb1 := Option.some.inj ihhead
            have hle := nextStart_le_computeEnd_add cfg text s (by omega) hs
            dsimp only
            omega
        · have hrest := chunkLoop_of_ge cfg text path maxIter fuel (nextStart cfg text s)
            (idx + 1) (iter + 1) (not_lt.mp hns)
          rw [hrest]
          have hexit := computeEnd_exit cfg text s hsz hs (not_lt.mp hns)
          refine ⟨by simp, rfl, by simp [hexit], by simp⟩


/-! ## Helper lemmas about the facade -/

theorem storeChunks_fail_store (env : Env) (st1 : RAGState) (path : String)
    (chunks : List Doc) (h : (storeChunks env st1 path chunks).1 = false) :
    (storeChunks env st1 path chunks).2.store = st1.store := by
  rw [storeChunks] at h ⊢
  dsimp only at h ⊢
  rcases hadd : add_documents
      (getEmbeddings env st1 (fileHash path) (chunks.map fun c => c.text)).2.store
      (chunks.map fun c => c.chunkId) (chunks.map fun c => c.text)
      (getEmbeddings env st1 (fileHash path) (chunks.map fun c => c.text)).1
      (chunks.map fun c => c.meta) with e | col
  · rw [hadd]
    dsimp only
    exact getEmbeddings_store env st1 (fileHash path) (chunks.map fun c => c.text)
  · rw [hadd] at h
    dsimp only at h
    simp at h

theorem index_file_true_eq (cfg : RAGConfig) (env : Env) (st : RAGState) (path0 : String) :
    index_file cfg env st path0 true =
      (let path := env.abspath path0
       let st1 : RAGState := { st with store := delete_by_file st.store path }
       let chunks0 := FileIndexer.index_file cfg.chunkCfg env.fs path
       if chunks0.isEmpty then (false, st1)
       else
         let chunks := if cfg.maxChunksPerFile < chunks0.length
           then chunks0.take cfg.maxChunksPerFile else chunks0
         if cfg.maxDocuments < get_document_count st.store + chunks.length then (false, st1)
         else storeChunks env st1 path chunks) := by
  rw [index_file]
  simp only [Bool.true_eq_false, and_false, false_and, if_false, ite_true, ite_false, if_true]

/-! ## Claim theorems -/

/-- Claim C2 (code bug): `add_documents` is meant to reject any call whose
four input sequences do not all have equal length, and its own error message
says so, but the line-68 check uses a chained comparison that only trips when
every adjacent pair of lengths differs.  At lengths (1, 1, 2, 2) the lengths
are not all equal and yet the repository's validation does not raise; only
the external backend call stands between this input and a silent mismatched
add. -/
theorem add_documents_guard_gap :
    ¬ allEqualLengths ["i1"] [['t']] [[1], [2]] [cmA, cmB] ∧
    lengthGuardTrips ["i1"] [['t']] [[1], [2]] [cmA, cmB] = false := by
  constructor
  · rw [allEqualLengths]
    decide
  · rfl

/-- Claim C10: calling `add_documents` with all four input sequences empty
raises `ValueError` even though the lengths are equal, and every successful
call strictly increases the document count, so there is no way to bulk-add
zero documents. -/
theorem add_documents_empty_raises (col : Collection) :
    add_documents col [] [] [] [] =
      Except.error "All input lists must have the same length" ∧
    ∀ (ids : List String) (texts : List (List Char)) (embs : List (List Rat))
      (metas : List ChunkMeta) (col₂ : Collection),
      add_documents col ids texts embs metas = Except.ok col₂ →
      col.length < col₂.length := by
  constructor
  · rfl
  · intro ids texts embs metas col₂ h
    rw [add_documents] at h
    by_cases hg : lengthGuardTrips ids texts embs metas = true
    · rw [if_pos hg] at h
      exact absurd h (by simp)
    · rw [if_neg hg] at h
      rw [Collection.add] at h
      by_cases hl : ids.length = texts.length ∧ texts.length = embs.length ∧
          embs.length = metas.length
      · rw [if_pos hl] at h
        have hcol : col ++ mkRecords ids texts embs metas = col₂ := by
          injection h
        rw [← hcol]
        have hlen := mkRecords_length ids texts embs metas hl.1 hl.2.1 hl.2.2
        have hne : ids ≠ [] := by
          intro hnil
          apply hg
          rw [hnil, lengthGuardTrips]
          rfl
        have hpos : 0 < ids.length := List.length_pos.mpr hne
        simp only [List.length_append]
        omega
      · rw [if_neg hl] at h
        exact absurd h (by simp)

/-- Witness for C10: a concrete successful one-document add strictly
increases the count. -/
theorem add_documents_empty_raises_witness :
    ([] : Collection).length < ([⟨"i1", ['t'], [1], cmA⟩] : Collection).length :=
  (add_documents_empty_raises []).2 ["i1"] [['t']] [[1]] [cmA]
    [⟨"i1", ['t'], [1], cmA⟩] rfl

/-- Claim C6: a `get_context` call whose query equals the previous call's
query, which arrives strictly less than the 2-second cooldown after it and
while a previous result exists, returns the cached `FormattedContext`
verbatim and leaves the state untouched — for every retrieval/builder
behavior `compute` and every parameter record `p`, since the cache key is the
literal query string only. -/
theorem get_context_cache_hit (compute : RAGState → String → GCParams → FormattedContext)
    (st : RAGState) (now : Rat) (query : String) (p : GCParams) (r : FormattedContext)
    (hres : st.lastContextResult = some r)
    (hq : query = st.lastContextQuery)
    (ht : now - st.lastContextTime < contextCooldown) :
    get_context compute st now query p = (r, st) := by
  rw [get_context, hres]
  dsimp only
  rw [if_pos ⟨hq, ht⟩]

/-- Witness for C6 at a concrete state, query and call time. -/
theorem get_context_cache_hit_witness :
    get_context (fun _ _ _ => fcNew) stCache 1 "q" gcDefault = (fcOld, stCache) :=
  get_context_cache_hit (fun _ _ _ => fcNew) stCache 1 "q" gcDefault fcOld rfl rfl
    (by norm_num [stCache, contextCooldown])

/-- Counterexample for claim C1: after `clear_index`, a `get_context` call
within the cooldown window with the pre-clear query still returns the
`FormattedContext` computed before the clear (`fcOld`), not the freshly
computable one (`fcNew`) — the cooldown cache is not reset by `clear_index`,
so the system is not in the state of a freshly constructed instance. -/
theorem clear_index_stale_cache_cex :
    (get_context (fun _ _ _ => fcNew) (clear_index stCache) 1 "q" gcDefault).1 = fcOld ∧
    fcOld ≠ fcNew := by
  constructor
  · norm_num [get_context, clear_index, stCache, contextCooldown]
  · decide

/-- Claim C1 as amended: `clear_index` empties the vector store, the
embedding cache and the active-file set, but it does not reset the
`get_context` cooldown cache: a repeat of the pre-clear query strictly within
the cooldown window still returns the pre-clear result verbatim. -/
theorem clear_index_effect (compute : RAGState → String → GCParams → FormattedContext)
    (st : RAGState) (now : Rat) (p : GCParams) (r : FormattedContext)
    (hres : st.lastContextResult = some r)
    (ht : now - st.lastContextTime < contextCooldown) :
    (clear_index st).store = [] ∧ (clear_index st).embCache = [] ∧
    (clear_index st).activeFiles = [] ∧
    get_context compute (clear_index st) now st.lastContextQuery p = (r, clear_index st) := by
  refine ⟨rfl, rfl, rfl, ?_⟩
  have hres' : (clear_index st).lastContextResult = some r := hres
  rw [get_context, hres']
  dsimp only
  rw [if_pos ⟨rfl, ht⟩]

/-- Witness for the amended C1 at a concrete state and call time. -/
theorem clear_index_effect_witness :
    (clear_index stCache).store = [] ∧ (clear_index stCache).embCache = [] ∧
    (clear_index stCache).activeFiles = [] ∧
    get_context (fun _ _ _ => fcNew) (clear_index stCache) 1 stCache.lastContextQuery
      gcDefault = (fcOld, clear_index stCache) :=
  clear_index_effect (fun _ _ _ => fcNew) stCache 1 gcDefault fcOld rfl
    (by norm_num [stCache, contextCooldown])

/-- Claim C4: without `force_reindex`, indexing a not-yet-indexed file whose
(capped) chunk count would push the total document count above
`max_documents` returns `False` and leaves the whole state — in particular
the vector store and its document count — unchanged. -/
theorem index_file_limit_enforcement (cfg : RAGConfig) (env : Env) (st : RAGState)
    (path : String)
    (hmem : env.abspath path ∉ get_all_file_paths st.store)
    (hlim : cfg.maxDocuments <
      st.store.length + (effectiveChunks cfg env (env.abspath path)).length) :
    index_file cfg env st path false = (false, st) := by
  rw [index_file]
  split_ifs with h1 h2 h3
  · rfl
  · exact absurd h2.2 hmem
  · exact h3.elim
  · dsimp only
    by_cases hE : (FileIndexer.index_file cfg.chunkCfg env.fs (env.abspath path)).isEmpty
    · rw [if_pos hE]
    · rw [if_neg hE, if_pos]
      simpa [effectiveChunks, get_document_count] using hlim

/-- Witness for C4: an empty store with `max_documents = 1` and a file that
chunks into two documents. -/
theorem index_file_limit_enforcement_witness :
    index_file cfgG envG rag0 "g" false = (false, rag0) :=
  index_file_limit_enforcement cfgG envG rag0 "g" (by decide) (by decide)

/-- Counterexample for claim C5: with `max_documents = 1`, the first
`index_file` call on file `f` succeeds and fills the store to the limit, the
file is then present in the index by absolute path, and yet the second call
without `force_reindex` returns `False`, because the document-limit check of
rag_system.py line 94 runs before the already-indexed check of line 100. -/
theorem index_file_idempotent_cex :
    (index_file cfgF envF rag0 "f" false).1 = true ∧
    envF.abspath "f" ∈ get_all_file_paths (index_file cfgF envF rag0 "f" false).2.store ∧
    (index_file cfgF envF (index_file cfgF envF rag0 "f" false).2 "f" false).1 = false := by
  decide

/-- Claim C5 as amended: provided the document count is still strictly below
`max_documents`, calling `index_file` without `force_reindex` on an
already-indexed path (by absolute path) returns `True` and changes nothing. -/
theorem index_file_idempotent (cfg : RAGConfig) (env : Env) (st : RAGState) (path : String)
    (hcount : st.store.length < cfg.maxDocuments)
    (hmem : env.abspath path ∈ get_all_file_paths st.store) :
    index_file cfg env st path false = (true, st) := by
  rw [index_file]
  rw [if_neg, if_pos]
  · exact ⟨rfl, hmem⟩
  · rintro ⟨h, -⟩
    exact absurd hcount (not_lt.mpr h)

/-- Witness for the amended C5 at a concrete indexed state. -/
theorem index_file_idempotent_witness :
    index_file cfgH envH stH "h" false = (true, stH) :=
  index_file_idempotent cfgH envH stH "h" (by decide) (by decide)

/-- Claim C9: when `index_file(path, force_reindex=True)` is called on an
already-indexed file and returns `False`, the file's previously stored chunks
stay deleted: the resulting store is exactly the old store with that file's
records removed, the file is absent from the index, and the document count is
strictly lower than before the call. -/
theorem index_file_force_failure (cfg : RAGConfig) (env : Env) (st : RAGState)
    (path : String)
    (hmem : env.abspath path ∈ get_all_file_paths st.store)
    (hfail : (index_file cfg env st path true).1 = false) :
    (index_file cfg env st path true).2.store = delete_by_file st.store (env.abspath path) ∧
    env.abspath path ∉ get_all_file_paths (index_file cfg env st path true).2.store ∧
    (index_file cfg env st path true).2.store.length < st.store.length := by
  have hkey : (index_file cfg env st path true).2.store
      = delete_by_file st.store (env.abspath path) := by
    rw [index_file_true_eq] at hfail ⊢
    dsimp only at hfail ⊢
    by_cases hE : (FileIndexer.index_file cfg.chunkCfg env.fs (env.abspath path)).isEmpty
    · rw [if_pos hE]
    · rw [if_neg hE] at hfail ⊢
      by_cases hL : cfg.maxDocuments < get_document_count st.store +
          (if cfg.maxChunksPerFile <
              (FileIndexer.index_file cfg.chunkCfg env.fs (env.abspath path)).length
           then (FileIndexer.index_file cfg.chunkCfg env.fs
              (env.abspath path)).take cfg.maxChunksPerFile
           else FileIndexer.index_file cfg.chunkCfg env.fs (env.abspath path)).length
      · rw [if_pos hL]
      · rw [if_neg hL] at hfail ⊢
        exact storeChunks_fail_store env _ (env.abspath path) _ hfail
  refine ⟨hkey, ?_, ?_⟩
  · rw [hkey]
    exact delete_by_file_not_mem st.store (env.abspath path)
  · rw [hkey]
    exact delete_by_file_length_lt st.store (env.abspath path) hmem

/-- Witness for C9: a store holding one chunk of file `h`, reindexed with
force while the file now parses to whitespace only, so the call fails after
the delete. -/
theorem index_file_force_failure_witness :
    (index_file cfgH envH stH "h" true).2.store
        = delete_by_file stH.store (envH.abspath "h") ∧
    envH.abspath "h" ∉ get_all_file_paths (index_file cfgH envH stH "h" true).2.store ∧
    (index_file cfgH envH stH "h" true).2.store.length < stH.store.length :=
  index_file_force_failure cfgH envH stH "h" (by decide) (by decide)

/-- Claim C8: `VectorStore.search` on an empty collection returns four empty
sequences rather than failing, and in general each of the four returned
sequences has at most `min top_k size` elements, hence never more elements
than the collection holds — for every backend distance function, query
vector, `top_k` and metadata filter. -/
theorem search_result_bounds (dist : List Rat → List Rat → Rat) (q : List Rat)
    (topK : Nat) (filt : Option (ChunkMeta → Bool)) (col : Collection) :
    VectorStore.search dist [] q topK filt = ([], [], [], []) ∧
    (VectorStore.search dist col q topK filt).1.length ≤ min topK col.length ∧
    (VectorStore.search dist col q topK filt).2.1.length ≤ min topK col.length ∧
    (VectorStore.search dist col q topK filt).2.2.1.length ≤ min topK col.length ∧
    (VectorStore.search dist col q topK filt).2.2.2.length ≤ min topK col.length := by
  constructor
  · rfl
  · unfold VectorStore.search
    by_cases h0 : col.length = 0
    · rw [if_pos h0]
      simp [h0]
    · rw [if_neg h0]
      dsimp only
      refine ⟨?_, ?_, ?_, ?_⟩ <;>
        simp [List.length_take]

/-- Claim C3 as amended: for every configuration with
`chunk_size > overlap >= 0`, the chunk_index values of `chunk_text` are the
contiguous non-negative integers starting at 0 and the (start_char, end_char)
ranges are monotonically non-decreasing; and provided no iteration skipped a
whitespace-only chunk and the safety cap did not abort the loop, the ranges
of a non-empty text cover `[0, len(text))` starting at 0, ending at
`len(text)`, with no gap larger than the configured overlap.  (The unamended
coverage statement fails when a whitespace-only chunk is dropped, see the
counterexample.) -/
theorem chunk_text_ranges (cfg : ChunkCfg) (text : List Char) (path : String)
    (hsz : cfg.overlap < cfg.chunkSize) :
    ((chunk_text cfg text path).map fun d => d.meta.chunkIndex)
        = List.range (chunk_text cfg text path).length ∧
    List.Chain' rangeMono (chunk_text cfg text path) ∧
    ((text.isEmpty || (pyStrip text).isEmpty) = false →
      (chunkRun cfg text path).skipped = false →
      (chunkRun cfg text path).aborted = false →
      coversText cfg text.length (chunk_text cfg text path)) := by
  refine ⟨?_, ?_, ?_⟩
  · rw [chunk_text]
    split
    · rfl
    · rw [List.range_eq_range']
      exact chunkLoop_indices cfg text path (maxIterations cfg text) (text.length + 1) 0 0 0
  · rw [chunk_text]
    split
    · simp
    · exact (chunkLoop_docs_spec cfg text path (maxIterations cfg text) hsz
        (text.length + 1) 0 0 0).2
  · intro hnb hskip habort
    rw [chunk_text, if_neg (by rw [hnb]; simp)]
    have h0 : text ≠ [] := by
      intro hnil
      rw [hnil] at hnb
      simp at hnb
    have hL : 0 < text.length := List.length_pos.mpr h0
    rw [chunkRun] at hskip habort
    have hc := chunkLoop_covers cfg text path (maxIterations cfg text) hsz
      (text.length + 1) 0 0 0 (by omega) hL hskip habort
    rw [coversText, chunkRun]
    exact hc

/-- Witness for the amended C3 at a concrete text and configuration. -/
theorem chunk_text_ranges_witness :
    ((chunk_text ⟨3, 1⟩ "abcdefgh".data "f").map fun d => d.meta.chunkIndex)
        = List.range (chunk_text ⟨3, 1⟩ "abcdefgh".data "f").length ∧
    List.Chain' rangeMono (chunk_text ⟨3, 1⟩ "abcdefgh".data "f") ∧
    coversText ⟨3, 1⟩ ("abcdefgh".data.length) (chunk_text ⟨3, 1⟩ "abcdefgh".data "f") := by
  have h := chunk_text_ranges ⟨3, 1⟩ "abcdefgh".data "f" (by decide)
  exact ⟨h.1, h.2.1, h.2.2 (by decide) (by decide) (by decide)⟩

/-- Counterexample for claim C3: on the text `"ab  cd"` with
`chunk_size = 2, overlap = 0` the middle whitespace-only slice is stripped
and skipped, so the emitted ranges are `[0,2)` and `[4,6)` and the gap of 2
between them exceeds the overlap 0: coverage fails as stated. -/
theorem chunk_text_coverage_cex :
    ((chunk_text ⟨2, 0⟩ "ab  cd".data "f").map fun d => (d.meta.startChar, d.meta.endChar))
        = [(0, 2), (4, 6)] ∧
    ¬ coversText ⟨2, 0⟩ ("ab  cd".data.length) (chunk_text ⟨2, 0⟩ "ab  cd".data "f") := by
  have hdocs : chunk_text ⟨2, 0⟩ "ab  cd".data "f"
      = [⟨"f:0", ['a', 'b'], ⟨"f", 0, 0, 2, 2⟩⟩, ⟨"f:1", ['c', 'd'], ⟨"f", 1, 4, 6, 2⟩⟩] := by
    decide
  constructor
  · rw [hdocs]
    rfl
  · rw [coversText, hdocs]
    rintro ⟨-, -, -, hchain⟩
    rw [List.chain'_cons] at hchain
    have hgap := hchain.1
    dsimp only at hgap
    omega

/-- Claim C7: for every text and configuration with
`chunk_size > overlap >= 0`, `chunk_text` terminates (it is a total
function), and the number of loop iterations that perform chunking work — the
final value of the `iteration` counter, minus the one safety-check execution
that only aborts when the cap is exceeded — never exceeds the documented cap
`len(text) / (overlap+1) + 100`. -/
theorem chunk_text_iteration_cap (cfg : ChunkCfg) (text : List Char) (path : String)
    (_hsz : cfg.overlap < cfg.chunkSize) :
    (chunkRun cfg text path).iter
      - (if (chunkRun cfg text path).aborted then 1 else 0)
      ≤ text.length / (cfg.overlap + 1) + 100 := by
  have h := chunkLoop_iter_le cfg text path (maxIterations cfg text)
    (text.length + 1) 0 0 0 (Nat.zero_le _)
  rw [chunkRun]
  have hcap : maxIterations cfg text = text.length / (cfg.overlap + 1) + 100 := by
    rw [maxIterations, minProg_eq]
  rw [← hcap]
  exact h

/-- Witness for C7 at a concrete text and configuration. -/
theorem chunk_text_iteration_cap_witness :
    (chunkRun ⟨3, 1⟩ "abcdefgh".data "f").iter
      - (if (chunkRun ⟨3, 1⟩ "abcdefgh".data "f").aborted then 1 else 0)
      ≤ "abcdefgh".data.length / (1 + 1) + 100 :=
  chunk_text_iteration_cap ⟨3, 1⟩ "abcdefgh".data "f" (by decide)

end Rag
